import Mathlib

/-!
Verification development for the candidate-extraction core of the
snorkel disease-tagging tutorial (`tutorials/disease_tagging/
Disease_Tagging_Tutorial_2.ipynb`).  The repository contains only the
notebook that *calls* `Ngrams`, `DictionaryMatch`, `Concat`, `Union` and
`CandidateExtractor`; the implementations of those components are not
part of the repository sources, so every component below is modelled
from the specification text (sections 3, 4.2, 4.3 and 4.4 of the spec)
and each definition's doc comment records that.
-/

set_option maxHeartbeats 1000000

/-- Modelled from the spec: a Sentence (section 3) is an ordered sequence of
tokens with a stable identity assigned by an external collaborator; we keep
the identity as a natural number and the tokens as surface strings. -/
structure Sentence where
  sid : Nat
  tokens : List String
deriving DecidableEq, Repr

/-- Modelled from the spec: a TokenSpan (section 3) is (sentence reference,
start token index inclusive, end token index inclusive). -/
structure TokenSpan where
  sent : Sentence
  first : Nat
  last : Nat
deriving DecidableEq, Repr

/-- Modelled from the spec: the TokenSpan invariant 0 ≤ start ≤ end <
len(sentence.tokens) (section 3). -/
def TokenSpan.valid (s : TokenSpan) : Prop :=
  s.first ≤ s.last ∧ s.last < s.sent.tokens.length

instance (s : TokenSpan) : Decidable s.valid := by
  unfold TokenSpan.valid; infer_instance

/-- Number of tokens covered by a span (both endpoints inclusive). -/
def TokenSpan.size (s : TokenSpan) : Nat :=
  s.last + 1 - s.first

/-- Modelled from the spec: surface text = join of token surface forms in
range (section 3); joined with single spaces. -/
def TokenSpan.text (s : TokenSpan) : String :=
  String.intercalate " " ((s.sent.tokens.drop s.first).take s.size)

/-- Modelled from the spec: two spans overlap iff they share a sentence and
their index ranges intersect (section 3). -/
def TokenSpan.overlaps (a b : TokenSpan) : Prop :=
  a.sent = b.sent ∧ a.first ≤ b.last ∧ b.first ≤ a.last

instance (a b : TokenSpan) : Decidable (a.overlaps b) := by
  unfold TokenSpan.overlaps; infer_instance

/-- Modelled from the spec: `a` is a strict sub-span of `b` — same sentence,
range contained within, and properly smaller (sections 4.3 and claim
wording: same sentence, range properly contained). -/
def TokenSpan.strictSubOf (a b : TokenSpan) : Prop :=
  a.sent = b.sent ∧ b.first ≤ a.first ∧ a.last ≤ b.last ∧ a ≠ b

instance (a b : TokenSpan) : Decidable (a.strictSubOf b) := by
  unfold TokenSpan.strictSubOf; infer_instance

/-- Modelled from the spec: the token-level part of the Ngrams span
generator (section 4.2): every TokenSpan of length 1..n_max anchored at
each start position, capped by the sentence length. -/
def ngramSpansFrom (sent : Sentence) (i : Nat) (nMax : Nat) : List TokenSpan :=
  (List.range (min nMax (sent.tokens.length - i))).map
    (fun k => { sent := sent, first := i, last := i + k })

/-- Modelled from the spec: Ngrams over a sentence — all token spans of
length 1..n_max from every start position (section 4.2). -/
def tokenSpans (nMax : Nat) (sent : Sentence) : List TokenSpan :=
  (List.range sent.tokens.length).flatMap (fun i => ngramSpansFrom sent i nMax)

/-- Modelled from the spec: the sub-token pieces of one token, delimited by
the configured split characters (section 4.2); computed over the token's
character sequence. -/
def splitPieces (splitChars : List Char) (tok : String) : List String :=
  (List.splitOnP (fun c => splitChars.contains c) tok.data).map
    (fun cs => { data := cs })

/-- Modelled from the spec: a span of sub-token pieces anchored within one
token's character range (section 4.2: split spans are independent shorter
spans anchored within token i's range, measured in sub-token units). -/
structure SubSpan where
  sent : Sentence
  tokIdx : Nat
  pieceFirst : Nat
  pieceLast : Nat
deriving DecidableEq, Repr

/-- Number of sub-token units covered by a split span. -/
def SubSpan.size (s : SubSpan) : Nat :=
  s.pieceLast + 1 - s.pieceFirst

/-- Modelled from the spec: the split-token part of Ngrams (section 4.2):
for every token that textually contains a split character, emit spans over
its sub-token pieces, up to n_max measured in sub-token units. -/
def splitSpans (nMax : Nat) (splitChars : List Char) (sent : Sentence) : List SubSpan :=
  (List.range sent.tokens.length).flatMap (fun i =>
    let tok := sent.tokens.getD i ""
    if tok.data.any (fun c => splitChars.contains c) then
      let ps := splitPieces splitChars tok
      (List.range ps.length).flatMap (fun j =>
        (List.range (min nMax (ps.length - j))).map
          (fun k => { sent := sent, tokIdx := i, pieceFirst := j, pieceLast := j + k }))
    else [])

/-- Modelled from the spec: the matcher algebra (section 4.3) — a tree of
DictionaryMatch, Concat and Union combinators.  A DictionaryMatch carries
its dictionary, the case-folding flag, the longest-match flag and an
optional pluggable stemming function; Concat carries its two component
matchers and the two optionality flags; Union carries its component list
and the longest-match flag. -/
inductive Matcher where
  | dict (d : List String) (ignoreCase : Bool) (longestMatchOnly : Bool)
      (stemmer : Option (String → String))
  | concat (left right : Matcher) (leftRequired rightRequired : Bool)
  | union (ms : List Matcher) (longestMatchOnly : Bool)

/-- Character-wise lower-casing of a string (the case folding applied when
ignore_case is set). -/
def lowerString (t : String) : String :=
  { data := t.data.map Char.toLower }

/-- Modelled from the spec: normalization applied consistently at
dictionary-build time and query time (section 3): optional case folding
then the optional pluggable stemming function. -/
def normalizeWith (ignoreCase : Bool) (stemmer : Option (String → String))
    (t : String) : String :=
  let t1 := if ignoreCase then lowerString t else t
  match stemmer with
  | some f => f t1
  | none => t1

mutual

/-- Modelled from the spec: the per-span acceptance predicate of the
matcher algebra (section 4.3).  DictionaryMatch accepts a span iff its
normalized surface text is a member of the (consistently normalized)
dictionary; Concat accepts S iff some adjacent bipartition of S satisfies
the component matchers, or an optional side is dropped and the other
matcher accepts all of S; Union accepts iff any component accepts. -/
def Matcher.accepts : Matcher → TokenSpan → Bool
  | .dict d ic _ stem, s =>
      (d.map (normalizeWith ic stem)).contains (normalizeWith ic stem s.text)
  | .concat l r lreq rreq, s =>
      ((List.range (s.last - s.first)).any (fun k =>
        l.accepts { sent := s.sent, first := s.first, last := s.first + k } &&
        r.accepts { sent := s.sent, first := s.first + k + 1, last := s.last })) ||
      (!lreq && r.accepts s) || (!rreq && l.accepts s)
  | .union ms _, s => Matcher.anyAccepts ms s

/-- Helper of `Matcher.accepts` for the Union case: true iff any component
matcher of the list accepts the span. -/
def Matcher.anyAccepts : List Matcher → TokenSpan → Bool
  | [], _ => false
  | m :: rest, s => m.accepts s || Matcher.anyAccepts rest s

end

/-- Modelled from the spec: longest-match containment suppression (section
4.3, step 2 of DictionaryMatch.filter): among the given spans, discard any
span properly contained in another span of the same list, keeping the
survivors in order. -/
def suppressContained (l : List TokenSpan) : List TokenSpan :=
  l.filter (fun s => !(l.any (fun t => decide (s.strictSubOf t))))

mutual

/-- Modelled from the spec: `filter` of the matcher algebra (section 4.3).
DictionaryMatch: accept each input span, then if longest_match_only
suppress spans properly contained in another accepted span of the same
call, survivors in input order.  Concat: keep exactly the spans `accepts`
holds of.  Union: apply each component's filter independently, union the
results deduplicating identical spans (kept in input order), then if
longest_match_only reapply containment suppression globally. -/
def Matcher.filter : Matcher → List TokenSpan → List TokenSpan
  | .dict d ic lmo stem, spans =>
      let acc := spans.filter (Matcher.dict d ic lmo stem).accepts
      if lmo then suppressContained acc else acc
  | .concat l r lreq rreq, spans =>
      spans.filter (Matcher.concat l r lreq rreq).accepts
  | .union ms lmo, spans =>
      let acc := spans.filter (fun s => Matcher.inAnyFilter ms spans s)
      if lmo then suppressContained acc else acc

/-- Helper of `Matcher.filter` for the Union case: true iff the span
appears in the independent filter result of some component of the list —
the deduplicating union of the component results keeps exactly the input
spans with this property, in input order. -/
def Matcher.inAnyFilter : List Matcher → List TokenSpan → TokenSpan → Bool
  | [], _, _ => false
  | m :: rest, spans, s =>
      decide (s ∈ m.filter spans) || Matcher.inAnyFilter rest spans s

end

/-- Modelled from the spec: a Candidate (section 3) is a tuple of argument
slots, each bound to one TokenSpan, tagged with the label passed to
`extract` (section 4.4 step 5). -/
structure Candidate where
  label : String
  slots : List TokenSpan
deriving DecidableEq, Repr

/-- Modelled from the spec: the construction-time error of section 7 —
`ConfigurationError` on a slot-count/arity mismatch. -/
inductive ExtractorError where
  | configurationMismatch
deriving DecidableEq, Repr

/-- Modelled from the spec: a CandidateExtractor (section 4.4) holds the
candidate schema (ordered slot names), one span generator per slot and one
matcher per slot. -/
structure CandidateExtractor where
  schema : List String
  generators : List (Sentence → List TokenSpan)
  matchers : List Matcher

/-- Modelled from the spec: the broadcast rule of section 4.4 — a single
supplied generator (or matcher) stands for all k slots. -/
def broadcastTo (k : Nat) : List α → List α
  | [x] => List.replicate k x
  | l => l

/-- Modelled from the spec: CandidateExtractor construction (sections 4.4
and 7): after broadcasting, the slot counts of schema, generators and
matchers must agree, else `ConfigurationError` is raised at construction
time. -/
def mkCandidateExtractor (schema : List String)
    (gens : List (Sentence → List TokenSpan)) (ms : List Matcher) :
    Except ExtractorError CandidateExtractor :=
  let g := broadcastTo schema.length gens
  let m := broadcastTo schema.length ms
  if g.length = schema.length ∧ m.length = schema.length then
    Except.ok { schema := schema, generators := g, matchers := m }
  else
    Except.error ExtractorError.configurationMismatch

/-- Modelled from the spec: step 2 of `extract` (section 4.4) — for each
slot i, run SpanGenerator[i] over the sentence, then Matcher[i].filter, to
get the accepted span set of that slot. -/
def CandidateExtractor.slotSets (ce : CandidateExtractor) (sent : Sentence) :
    List (List TokenSpan) :=
  List.zipWith (fun g m => Matcher.filter m (g sent)) ce.generators ce.matchers

/-- Cartesian product of a list of lists: all ways of picking one element
from each list, in order (step 3 of section 4.4). -/
def cartProd : List (List α) → List (List α)
  | [] => [[]]
  | l :: ls => l.flatMap (fun x => (cartProd ls).map (fun t => x :: t))

/-- Modelled from the spec: the tuple-level overlap test of step 4
(section 4.4) — true iff no two distinct slot positions of the tuple hold
overlapping spans (a slot span is never compared against itself). -/
def noPairOverlap : List TokenSpan → Bool
  | [] => true
  | x :: xs => xs.all (fun y => !(decide (x.overlaps y))) && noPairOverlap xs

/-- Modelled from the spec: per-sentence extraction (section 4.4 steps
2-5): build the slot sets, take their Cartesian product, when
exclude_self_overlap is set and the arity exceeds one drop tuples with two
distinct overlapping slot spans, and emit one labelled Candidate per
surviving tuple. -/
def CandidateExtractor.extractSentence (ce : CandidateExtractor)
    (label : String) (excludeSelfOverlap : Bool) (sent : Sentence) :
    List Candidate :=
  let tuples := cartProd (ce.slotSets sent)
  let kept :=
    if excludeSelfOverlap && decide (1 < ce.schema.length) then
      tuples.filter noPairOverlap
    else tuples
  kept.map (fun t => { label := label, slots := t })

/-- Modelled from the spec: `extract` over a collection of sentences
(section 4.4 step 1): each sentence is processed independently and the
per-sentence results are concatenated in the iteration order of the input
collection. -/
def CandidateExtractor.extract (ce : CandidateExtractor) (label : String)
    (excludeSelfOverlap : Bool) (sents : List Sentence) : List Candidate :=
  sents.flatMap (ce.extractSentence label excludeSelfOverlap)

/-- The sentence of the spec's first scenario (section 8). -/
def lungSentence : Sentence :=
  { sid := 0, tokens := ["lung", "cancer", "and", "heart", "failure"] }

/-- The DictionaryMatch of the spec's first scenario (section 8): dictionary
containing the two disease names, case folding on, longest_match_only on. -/
def lungDictMatcher : Matcher :=
  Matcher.dict ["lung cancer", "heart failure"] true true none

/-- The sentence of the spec's Concat scenario (section 8). -/
def typeSentence : Sentence :=
  { sid := 1, tokens := ["type", "ii", "diabetes"] }

/-- The Concat matcher of the spec's Concat scenario (section 8). -/
def typeConcatMatcher : Matcher :=
  Matcher.concat (Matcher.dict ["type"] true false none)
    (Matcher.dict ["i", "ii"] true false none) true true

/-- The sentence of the spec's self-overlap scenario (section 8): it holds
exactly one dictionary match. -/
def pairSentence : Sentence :=
  { sid := 2, tokens := ["lung", "cancer"] }

/-- The matcher of the spec's self-overlap scenario. -/
def pairDictMatcher : Matcher :=
  Matcher.dict ["lung cancer"] true true none

/-- The 2-slot extractor of the spec's self-overlap scenario: identical
generator and matcher for both slots. -/
def pairExtractor : CandidateExtractor :=
  { schema := ["d1", "d2"]
    generators := [tokenSpans 2, tokenSpans 2]
    matchers := [pairDictMatcher, pairDictMatcher] }

/-- A sentence whose single token contains the split character, used to
exercise the split-token part of Ngrams. -/
def dashSentence : Sentence :=
  { sid := 3, tokens := ["a-b"] }

/-- A concrete split span over `dashSentence`: the first sub-token piece of
its only token. -/
def dashSubSpan : SubSpan :=
  { sent := dashSentence, tokIdx := 0, pieceFirst := 0, pieceLast := 0 }

/-- The candidate emitted by `pairExtractor` over `pairSentence` when
self-overlap is allowed: the single accepted span paired with itself. -/
def pairCandidate : Candidate :=
  { label := "cands"
    slots := [{ sent := pairSentence, first := 0, last := 1 },
              { sent := pairSentence, first := 0, last := 1 }] }

/-- A sentence with an empty token sequence. -/
def emptySentence : Sentence :=
  { sid := 4, tokens := [] }

/-- A well-formed one-slot extractor used to exercise construction. -/
def oneSlotExtractor : CandidateExtractor :=
  { schema := ["a"]
    generators := [tokenSpans 1]
    matchers := [pairDictMatcher] }

lemma suppressContained_filter (p : TokenSpan → Bool) (l : List TokenSpan) :
    suppressContained (l.filter p) =
      l.filter (fun s => p s && !(l.any (fun t => p t && decide (s.strictSubOf t)))) := by
  unfold suppressContained
  rw [List.filter_filter]
  simp only [List.any_filter]
  refine List.filter_congr ?_
  intro a _
  exact Bool.and_comm _ _

lemma inAnyFilter_iff (ms : List Matcher) (spans : List TokenSpan) (s : TokenSpan) :
    Matcher.inAnyFilter ms spans s = true ↔ ∃ m ∈ ms, s ∈ m.filter spans := by
  induction ms with
  | nil => simp [Matcher.inAnyFilter]
  | cons m rest ih => simp [Matcher.inAnyFilter, ih]

/-- Claim C1: for every finite input sequence of TokenSpans,
DictionaryMatch.filter with longest_match_only=true returns exactly the
accepted spans minus every accepted span that is a strict sub-span of
another accepted span from the same filter call, survivors in original
input order; and in the spec's scenario over
["lung","cancer","and","heart","failure"] with dictionary
{"lung cancer","heart failure"}, n_max=2, exactly the spans
"lung cancer" (tokens 0-1) and "heart failure" (tokens 3-4) survive and
the single-token span "lung" does not. -/
theorem dictionaryMatch_filter_longest_spec :
    (∀ (d : List String) (ic : Bool) (stem : Option (String → String))
       (spans : List TokenSpan),
       (Matcher.dict d ic true stem).filter spans =
         spans.filter (fun s =>
           (Matcher.dict d ic true stem).accepts s &&
           !(spans.any (fun t =>
               (Matcher.dict d ic true stem).accepts t &&
               decide (s.strictSubOf t))))) ∧
    lungDictMatcher.filter (tokenSpans 2 lungSentence) =
      [{ sent := lungSentence, first := 0, last := 1 },
       { sent := lungSentence, first := 3, last := 4 }] ∧
    TokenSpan.text { sent := lungSentence, first := 0, last := 1 } = "lung cancer" ∧
    TokenSpan.text { sent := lungSentence, first := 3, last := 4 } = "heart failure" ∧
    TokenSpan.text { sent := lungSentence, first := 0, last := 0 } = "lung" ∧
    (tokenSpans 2 lungSentence).contains
      { sent := lungSentence, first := 0, last := 0 } = true ∧
    (lungDictMatcher.filter (tokenSpans 2 lungSentence)).contains
      { sent := lungSentence, first := 0, last := 0 } = false := by
  refine ⟨?_, by decide, by decide, by decide, by decide, by decide, by decide⟩
  intro d ic stem spans
  show suppressContained (spans.filter (Matcher.dict d ic true stem).accepts) = _
  exact suppressContained_filter _ spans

/-- Claim C2: Union(m1, ..., mk, longest_match_only).filter yields an
order-preserving subset of the input, preserves the absence of duplicates,
and contains exactly the input spans lying in some component's independent
filter result, minus — when longest_match_only is true — every such span
strictly contained in another span of the unioned result set. -/
theorem union_filter_spec (ms : List Matcher) (spans : List TokenSpan) :
    (∀ lmo, ((Matcher.union ms lmo).filter spans).Sublist spans) ∧
    (∀ lmo, spans.Nodup → ((Matcher.union ms lmo).filter spans).Nodup) ∧
    (∀ s, s ∈ (Matcher.union ms false).filter spans ↔
       s ∈ spans ∧ ∃ m ∈ ms, s ∈ m.filter spans) ∧
    (∀ s, s ∈ (Matcher.union ms true).filter spans ↔
       s ∈ spans ∧ (∃ m ∈ ms, s ∈ m.filter spans) ∧
       ¬ ∃ t ∈ spans, (∃ m ∈ ms, t ∈ m.filter spans) ∧ s.strictSubOf t) := by
  have hfalse : (Matcher.union ms false).filter spans =
      spans.filter (fun s => Matcher.inAnyFilter ms spans s) := rfl
  have htrue : (Matcher.union ms true).filter spans =
      suppressContained (spans.filter (fun s => Matcher.inAnyFilter ms spans s)) := rfl
  refine ⟨?_, ?_, ?_, ?_⟩
  · intro lmo
    cases lmo
    · rw [hfalse]; exact List.filter_sublist spans
    · rw [htrue, suppressContained_filter]; exact List.filter_sublist spans
  · intro lmo hnd
    cases lmo
    · rw [hfalse]; exact hnd.filter _
    · rw [htrue, suppressContained_filter]; exact hnd.filter _
  · intro s
    rw [hfalse]
    simp [List.mem_filter, inAnyFilter_iff]
  · intro s
    rw [htrue, suppressContained_filter]
    simp only [List.mem_filter, Bool.and_eq_true, Bool.not_eq_true', List.any_eq_false,
      inAnyFilter_iff]
    constructor
    · rintro ⟨hs, hin, hnone⟩
      refine ⟨hs, hin, ?_⟩
      rintro ⟨t, ht, htin, hsub⟩
      exact hnone t ht ⟨htin, decide_eq_true hsub⟩
    · rintro ⟨hs, hin, hno⟩
      refine ⟨hs, hin, ?_⟩
      rintro t ht ⟨htin, hsubd⟩
      exact hno ⟨t, ht, htin, of_decide_eq_true hsubd⟩

/-- Witness for claim C2: instantiating the union filter theorem at a
concrete matcher list and concrete Ngrams input and discharging the
duplicate-freeness hypothesis there. -/
theorem union_filter_spec_witness :
    (tokenSpans 2 lungSentence).Nodup ∧
    ((Matcher.union [lungDictMatcher] true).filter
      (tokenSpans 2 lungSentence)).Nodup :=
  ⟨by decide,
   (union_filter_spec [lungDictMatcher] (tokenSpans 2 lungSentence)).2.1
     true (by decide)⟩

/-- Claim C3: Concat(left, right, left_required, right_required) accepts a
span S iff S splits into two adjacent sub-spans accepted by the component
matchers respectively, or left_required is false and the right matcher
accepts all of S, or right_required is false and the left matcher accepts
all of S; and in the spec's scenario over ["type","ii","diabetes"],
Concat(DictionaryMatch {"type"}, DictionaryMatch {"i","ii"}) accepts the
span "type ii" (tokens 0-1) and rejects "ii diabetes" (tokens 1-2). -/
theorem concat_accepts_spec :
    (∀ (l r : Matcher) (lreq rreq : Bool) (s : TokenSpan),
       (Matcher.concat l r lreq rreq).accepts s = true ↔
         (∃ m, s.first ≤ m ∧ m < s.last ∧
            l.accepts { sent := s.sent, first := s.first, last := m } = true ∧
            r.accepts { sent := s.sent, first := m + 1, last := s.last } = true) ∨
         (lreq = false ∧ r.accepts s = true) ∨
         (rreq = false ∧ l.accepts s = true)) ∧
    typeConcatMatcher.accepts { sent := typeSentence, first := 0, last := 1 } = true ∧
    typeConcatMatcher.accepts { sent := typeSentence, first := 1, last := 2 } = false ∧
    TokenSpan.text { sent := typeSentence, first := 0, last := 1 } = "type ii" ∧
    TokenSpan.text { sent := typeSentence, first := 1, last := 2 } = "ii diabetes" := by
  refine ⟨?_, by decide, by decide, by decide, by decide⟩
  intro l r lreq rreq s
  show (((List.range (s.last - s.first)).any fun k =>
      l.accepts { sent := s.sent, first := s.first, last := s.first + k } &&
      r.accepts { sent := s.sent, first := s.first + k + 1, last := s.last }) ||
      (!lreq && r.accepts s) || (!rreq && l.accepts s)) = true ↔ _
  simp only [Bool.or_eq_true, List.any_eq_true, List.mem_range, Bool.and_eq_true,
    Bool.not_eq_true']
  constructor
  · rintro ((⟨k, hk, hl, hr⟩ | ⟨hlreq, hr⟩) | ⟨hrreq, hl⟩)
    · exact Or.inl ⟨s.first + k, Nat.le_add_right _ _, by omega, hl, hr⟩
    · exact Or.inr (Or.inl ⟨hlreq, hr⟩)
    · exact Or.inr (Or.inr ⟨hrreq, hl⟩)
  · rintro (⟨m, hm1, hm2, hl, hr⟩ | ⟨hlreq, hr⟩ | ⟨hrreq, hl⟩)
    · refine Or.inl (Or.inl ⟨m - s.first, by omega, ?_, ?_⟩)
      · have : s.first + (m - s.first) = m := by omega
        rw [this]; exact hl
      · have : s.first + (m - s.first) + 1 = m + 1 := by omega
        rw [this]; exact hr
    · exact Or.inl (Or.inr ⟨hlreq, hr⟩)
    · exact Or.inr ⟨hrreq, hl⟩

lemma mem_map_mk_iff (label : String) (ts : List (List TokenSpan)) (c : Candidate) :
    c ∈ ts.map (fun t => { label := label, slots := t : Candidate }) ↔
      c.label = label ∧ c.slots ∈ ts := by
  constructor
  · intro h
    rcases List.mem_map.mp h with ⟨t, ht, heq⟩
    cases c
    cases heq
    exact ⟨rfl, ht⟩
  · rintro ⟨hl, hs⟩
    cases c
    cases hl
    exact List.mem_map.mpr ⟨_, hs, rfl⟩

/-- Claim C4: CandidateExtractor.extract emits one Candidate per tuple of
the Cartesian product of the per-slot accepted span sets, except that with
exclude_self_overlap=true and arity above one every tuple containing two
distinct overlapping slot spans is discarded; in the spec's scenario, a
2-slot extractor with identical generator and matcher over a sentence with
exactly one accepted span emits zero candidates with
exclude_self_overlap=true and exactly one self-paired tuple with
exclude_self_overlap=false. -/
theorem candidateExtractor_cartesian_spec :
    (∀ (ce : CandidateExtractor) (label : String) (excl : Bool) (sent : Sentence)
       (c : Candidate),
       c ∈ ce.extractSentence label excl sent ↔
         c.label = label ∧ c.slots ∈ cartProd (ce.slotSets sent) ∧
         (excl = false ∨ ce.schema.length ≤ 1 ∨ noPairOverlap c.slots = true)) ∧
    pairDictMatcher.filter (tokenSpans 2 pairSentence) =
      [{ sent := pairSentence, first := 0, last := 1 }] ∧
    pairExtractor.extractSentence "cands" true pairSentence = [] ∧
    pairExtractor.extractSentence "cands" false pairSentence =
      [{ label := "cands",
         slots := [{ sent := pairSentence, first := 0, last := 1 },
                   { sent := pairSentence, first := 0, last := 1 }] }] := by
  refine ⟨?_, by decide, by decide, by decide⟩
  intro ce label excl sent c
  have h1 : ce.extractSentence label excl sent =
      (if excl && decide (1 < ce.schema.length) then
        (cartProd (ce.slotSets sent)).filter noPairOverlap
       else cartProd (ce.slotSets sent)).map
        (fun t => { label := label, slots := t : Candidate }) := rfl
  rw [h1]
  cases hx : excl with
  | false =>
      rw [Bool.false_and, if_neg (by simp)]
      rw [mem_map_mk_iff]
      constructor
      · rintro ⟨hl, hmem⟩
        exact ⟨hl, hmem, Or.inl rfl⟩
      · rintro ⟨hl, hmem, _⟩
        exact ⟨hl, hmem⟩
  | true =>
      by_cases hk : 1 < ce.schema.length
      · rw [Bool.true_and, if_pos (by simpa using hk), mem_map_mk_iff, List.mem_filter]
        constructor
        · rintro ⟨hl, hmem, hno⟩
          exact ⟨hl, hmem, Or.inr (Or.inr hno)⟩
        · rintro ⟨hl, hmem, (h | h | h)⟩
          · cases h
          · exact absurd hk (by omega)
          · exact ⟨hl, hmem, h⟩
      · rw [Bool.true_and, if_neg (by simpa using hk), mem_map_mk_iff]
        constructor
        · rintro ⟨hl, hmem⟩
          exact ⟨hl, hmem, Or.inr (Or.inl (by omega))⟩
        · rintro ⟨hl, hmem, _⟩
          exact ⟨hl, hmem⟩

lemma flatMap_singleton_eq_map {α β : Type} (l : List α) (f : α → List β)
    (g : α → β) (h : ∀ a ∈ l, f a = [g a]) : l.flatMap f = l.map g := by
  induction l with
  | nil => rfl
  | cons a t ih =>
      rw [List.flatMap_cons, h a (by simp), ih (fun x hx => h x (by simp [hx])),
        List.map_cons]
      rfl

/-- Claim C5: an Ngrams generator with n_max=1 produces exactly one span
per token (in token order, each of one token) and no longer span; for
every n_max=N no produced span exceeds N tokens, nor N sub-token units for
spans produced by splitting on the configured split characters; every
produced span respects the sentence bounds, so an n_max larger than the
sentence length yields spans only up to the sentence length. -/
theorem ngrams_span_bounds_spec :
    (∀ sent : Sentence, tokenSpans 1 sent =
       (List.range sent.tokens.length).map
         (fun i => { sent := sent, first := i, last := i })) ∧
    (∀ (n : Nat) (sent : Sentence) (s : TokenSpan),
       s ∈ tokenSpans n sent →
         s.size ≤ n ∧ s.valid ∧ s.size ≤ sent.tokens.length) ∧
    (∀ (n : Nat) (cs : List Char) (sent : Sentence) (p : SubSpan),
       p ∈ splitSpans n cs sent → p.size ≤ n) := by
  refine ⟨?_, ?_, ?_⟩
  · intro sent
    unfold tokenSpans
    refine flatMap_singleton_eq_map _ _ _ ?_
    intro i hi
    rw [List.mem_range] at hi
    unfold ngramSpansFrom
    have hmin : min 1 (sent.tokens.length - i) = 1 := by omega
    rw [hmin]
    rfl
  · intro n sent s hs
    unfold tokenSpans at hs
    rw [List.mem_flatMap] at hs
    rcases hs with ⟨i, hi, hmem⟩
    rw [List.mem_range] at hi
    unfold ngramSpansFrom at hmem
    rw [List.mem_map] at hmem
    rcases hmem with ⟨k, hk, rfl⟩
    rw [List.mem_range] at hk
    refine ⟨?_, ⟨?_, ?_⟩, ?_⟩ <;> simp only [TokenSpan.size, TokenSpan.valid] <;> omega
  · intro n cs sent p hp
    unfold splitSpans at hp
    rw [List.mem_flatMap] at hp
    rcases hp with ⟨i, _, hmem⟩
    dsimp only at hmem
    split at hmem
    · rw [List.mem_flatMap] at hmem
      rcases hmem with ⟨j, _, hmem⟩
      rw [List.mem_map] at hmem
      rcases hmem with ⟨k, hk, rfl⟩
      rw [List.mem_range] at hk
      simp only [SubSpan.size]
      omega
    · simp at hmem

/-- Witness for claim C5: instantiating the span-bound theorem at concrete
spans produced by `tokenSpans` and by `splitSpans` and discharging the
membership hypotheses there. -/
theorem ngrams_span_bounds_spec_witness :
    ({ sent := lungSentence, first := 3, last := 4 : TokenSpan } ∈
       tokenSpans 2 lungSentence ∧
     TokenSpan.size { sent := lungSentence, first := 3, last := 4 } ≤ 2 ∧
     TokenSpan.valid { sent := lungSentence, first := 3, last := 4 } ∧
     TokenSpan.size { sent := lungSentence, first := 3, last := 4 } ≤
       lungSentence.tokens.length) ∧
    (dashSubSpan ∈ splitSpans 1 [Char.ofNat 45] dashSentence ∧
     dashSubSpan.size ≤ 1) :=
  ⟨⟨by decide,
    ngrams_span_bounds_spec.2.1 2 lungSentence
      { sent := lungSentence, first := 3, last := 4 } (by decide)⟩,
   ⟨by decide,
    ngrams_span_bounds_spec.2.2 1 [Char.ofNat 45] dashSentence dashSubSpan
      (by decide)⟩⟩

lemma forall₂_of_mem_cartProd {α : Type} :
    ∀ (ls : List (List α)) (t : List α), t ∈ cartProd ls →
      List.Forall₂ (fun x l => x ∈ l) t ls
  | [], t, ht => by
      simp only [cartProd, List.mem_singleton] at ht
      subst ht
      exact List.Forall₂.nil
  | l :: ls, t, ht => by
      simp only [cartProd, List.mem_flatMap, List.mem_map] at ht
      rcases ht with ⟨x, hx, t', ht', rfl⟩
      exact List.Forall₂.cons hx (forall₂_of_mem_cartProd ls t' ht')

lemma extractSentence_eq (ce : CandidateExtractor) (label : String)
    (excl : Bool) (sent : Sentence) :
    ce.extractSentence label excl sent =
      (if excl && decide (1 < ce.schema.length) then
        (cartProd (ce.slotSets sent)).filter noPairOverlap
       else cartProd (ce.slotSets sent)).map
        (fun t => { label := label, slots := t : Candidate }) := rfl

/-- Claim C6: every Candidate emitted by CandidateExtractor.extract binds,
at each slot i, a span drawn from the result of running the slot's span
generator over the candidate's sentence followed by the slot's matcher
filter — each emitted slot span independently passed both stages. -/
theorem candidate_slots_roundtrip_spec (ce : CandidateExtractor)
    (label : String) (excl : Bool) (sents : List Sentence) (c : Candidate)
    (hc : c ∈ ce.extract label excl sents) :
    ∃ sent ∈ sents,
      List.Forall₂ (fun s slotSet => s ∈ slotSet) c.slots (ce.slotSets sent) ∧
      ∀ (i : Nat) (hi : i < c.slots.length) (hg : i < ce.generators.length)
        (hm : i < ce.matchers.length),
        c.slots.get ⟨i, hi⟩ ∈
          (ce.matchers.get ⟨i, hm⟩).filter ((ce.generators.get ⟨i, hg⟩) sent) := by
  unfold CandidateExtractor.extract at hc
  rw [List.mem_flatMap] at hc
  rcases hc with ⟨sent, hsent, hmem⟩
  rw [extractSentence_eq, mem_map_mk_iff] at hmem
  rcases hmem with ⟨_, hslots⟩
  have htup : c.slots ∈ cartProd (ce.slotSets sent) := by
    split at hslots
    · exact (List.mem_filter.mp hslots).1
    · exact hslots
  have hf := forall₂_of_mem_cartProd _ _ htup
  refine ⟨sent, hsent, hf, ?_⟩
  intro i hi hg hm
  have hlen : c.slots.length = (ce.slotSets sent).length := hf.length_eq
  have h2 : i < (ce.slotSets sent).length := hlen ▸ hi
  have hrel := hf.get hi h2
  have heq : (ce.slotSets sent).get ⟨i, h2⟩ =
      (ce.matchers.get ⟨i, hm⟩).filter ((ce.generators.get ⟨i, hg⟩) sent) := by
    simp only [CandidateExtractor.slotSets, List.get_eq_getElem,
      List.getElem_zipWith]
  rw [heq] at hrel
  exact hrel

/-- Witness for claim C6: the round-trip theorem applied to the concrete
candidate emitted by the self-overlap scenario extractor, with the
membership hypothesis discharged by evaluation. -/
theorem candidate_slots_roundtrip_spec_witness :
    pairCandidate ∈ pairExtractor.extract "cands" false [pairSentence] ∧
    ∃ sent ∈ [pairSentence],
      List.Forall₂ (fun s slotSet => s ∈ slotSet) pairCandidate.slots
        (pairExtractor.slotSets sent) ∧
      ∀ (i : Nat) (hi : i < pairCandidate.slots.length)
        (hg : i < pairExtractor.generators.length)
        (hm : i < pairExtractor.matchers.length),
        pairCandidate.slots.get ⟨i, hi⟩ ∈
          (pairExtractor.matchers.get ⟨i, hm⟩).filter
            ((pairExtractor.generators.get ⟨i, hg⟩) sent) :=
  ⟨by decide,
   candidate_slots_roundtrip_spec pairExtractor "cands" false [pairSentence]
     pairCandidate (by decide)⟩

/-- Claim C7: constructing a CandidateExtractor fails with
ConfigurationError exactly when, after the broadcast rule, the slot counts
of schema, generators and matchers disagree; any successfully constructed
extractor carries matching slot counts, so the mismatch can never first
surface during extract. -/
theorem mkCandidateExtractor_configuration_spec (schema : List String)
    (gens : List (Sentence → List TokenSpan)) (ms : List Matcher) :
    (mkCandidateExtractor schema gens ms =
        Except.error ExtractorError.configurationMismatch ↔
      ¬((broadcastTo schema.length gens).length = schema.length ∧
        (broadcastTo schema.length ms).length = schema.length)) ∧
    ∀ ce, mkCandidateExtractor schema gens ms = Except.ok ce →
      ce.schema = schema ∧ ce.generators.length = schema.length ∧
      ce.matchers.length = schema.length := by
  unfold mkCandidateExtractor
  by_cases h : (broadcastTo schema.length gens).length = schema.length ∧
      (broadcastTo schema.length ms).length = schema.length
  · rw [if_pos h]
    constructor
    · constructor
      · intro habs
        exact Except.noConfusion habs
      · intro habs
        exact absurd h habs
    · intro ce hce
      cases hce
      exact ⟨rfl, h.1, h.2⟩
  · rw [if_neg h]
    constructor
    · exact ⟨fun _ => h, fun _ => rfl⟩
    · intro ce hce
      exact Except.noConfusion hce

/-- Witness for claim C7: a three-matcher configuration against a
two-slot schema is rejected at construction, while a matching one-slot
configuration is accepted with agreeing slot counts; both facts follow
from the configuration theorem with its hypotheses discharged by
evaluation. -/
theorem mkCandidateExtractor_configuration_spec_witness :
    mkCandidateExtractor ["a", "b"] [tokenSpans 1]
        [pairDictMatcher, pairDictMatcher, pairDictMatcher] =
      Except.error ExtractorError.configurationMismatch ∧
    oneSlotExtractor.schema = ["a"] ∧
    oneSlotExtractor.generators.length = ["a"].length ∧
    oneSlotExtractor.matchers.length = ["a"].length :=
  ⟨(mkCandidateExtractor_configuration_spec ["a", "b"] [tokenSpans 1]
      [pairDictMatcher, pairDictMatcher, pairDictMatcher]).1.mpr (by decide),
   (mkCandidateExtractor_configuration_spec ["a"] [tokenSpans 1]
      [pairDictMatcher]).2 oneSlotExtractor rfl⟩

lemma Matcher.filter_nil (m : Matcher) : m.filter [] = [] := by
  cases m with
  | dict d ic lmo stem => cases lmo <;> rfl
  | concat l r lreq rreq => rfl
  | union ms lmo => cases lmo <;> rfl

/-- Claim C8: extraction is total over well-formed input — a sentence with
an empty token sequence degrades to zero generated spans, every matcher
filters the empty span list to the empty list, and an extractor built from
Ngrams generators emits zero candidates on such a sentence rather than
failing (in this model every operation is a total function, so no error is
possible by construction). -/
theorem extract_total_empty_sentence_spec (sent : Sentence)
    (h : sent.tokens = []) :
    (∀ n, tokenSpans n sent = []) ∧
    (∀ n cs, splitSpans n cs sent = []) ∧
    (∀ m : Matcher, m.filter [] = []) ∧
    (∀ (schema : List String) (m0 : Matcher) (mrest : List Matcher) (n : Nat)
       (label : String) (excl : Bool),
       CandidateExtractor.extractSentence
         { schema := schema,
           generators := (m0 :: mrest).map (fun _ => tokenSpans n),
           matchers := m0 :: mrest } label excl sent = []) := by
  have htok : ∀ n, tokenSpans n sent = [] := by
    intro n
    simp [tokenSpans, h]
  refine ⟨htok, ?_, Matcher.filter_nil, ?_⟩
  · intro n cs
    simp [splitSpans, h]
  · intro schema m0 mrest n label excl
    have hslots : CandidateExtractor.slotSets
        { schema := schema,
          generators := (m0 :: mrest).map (fun _ => tokenSpans n),
          matchers := m0 :: mrest } sent =
        [] :: List.zipWith (fun g m => Matcher.filter m (g sent))
          (mrest.map (fun _ => tokenSpans n)) mrest := by
      simp only [CandidateExtractor.slotSets, List.map_cons,
        List.zipWith_cons_cons]
      rw [htok n, Matcher.filter_nil]
    rw [extractSentence_eq, hslots]
    split <;> rfl

/-- Witness for claim C8: the totality theorem applied to the concrete
empty-token sentence, with the emptiness hypothesis discharged by
evaluation. -/
theorem extract_total_empty_sentence_spec_witness :
    emptySentence.tokens = [] ∧
    tokenSpans 5 emptySentence = [] ∧
    splitSpans 5 [Char.ofNat 45] emptySentence = [] ∧
    Matcher.filter pairDictMatcher [] = [] ∧
    CandidateExtractor.extractSentence
      { schema := ["d1"], generators := [tokenSpans 5],
        matchers := [pairDictMatcher] } "lab" true emptySentence = [] := by
  have h := extract_total_empty_sentence_spec emptySentence (by decide)
  exact ⟨by decide, h.1 5, h.2.1 5 [Char.ofNat 45], h.2.2.1 pairDictMatcher,
    h.2.2.2 ["d1"] pairDictMatcher [] 5 "lab" true⟩

/-- Claim C9: extraction is deterministic and idempotent — two calls of
CandidateExtractor.extract on the same sentences under the same
configuration (same schema, generators and matchers) return identical
candidate collections, hence collections equal as sets; in this purely
functional model the collections even coincide element for element. -/
theorem extract_deterministic_spec (ce₁ ce₂ : CandidateExtractor)
    (label : String) (excl : Bool) (sents : List Sentence)
    (hs : ce₁.schema = ce₂.schema) (hg : ce₁.generators = ce₂.generators)
    (hm : ce₁.matchers = ce₂.matchers) :
    ce₁.extract label excl sents = ce₂.extract label excl sents ∧
    ∀ c, c ∈ ce₁.extract label excl sents ↔ c ∈ ce₂.extract label excl sents := by
  obtain ⟨s1, g1, m1⟩ := ce₁
  obtain ⟨s2, g2, m2⟩ := ce₂
  cases hs
  cases hg
  cases hm
  exact ⟨rfl, fun c => Iff.rfl⟩

/-- Witness for claim C9: the determinism theorem applied to two calls with
the concrete scenario extractor, its configuration-equality hypotheses
discharged by reflexivity. -/
theorem extract_deterministic_spec_witness :
    pairExtractor.extract "cands" true [pairSentence] =
      pairExtractor.extract "cands" true [pairSentence] :=
  (extract_deterministic_spec pairExtractor pairExtractor "cands" true
    [pairSentence] rfl rfl rfl).1

/-- Claim C10: the candidate set emitted by CandidateExtractor.extract is
invariant under permutation of the input sentence iteration order — for
any two orderings of the same sentence multiset the outputs are
permutations of each other and so equal as sets. -/
theorem extract_order_invariance_spec (ce : CandidateExtractor)
    (label : String) (excl : Bool) (sents₁ sents₂ : List Sentence)
    (hp : sents₁.Perm sents₂) :
    (ce.extract label excl sents₁).Perm (ce.extract label excl sents₂) ∧
    ∀ c, c ∈ ce.extract label excl sents₁ ↔ c ∈ ce.extract label excl sents₂ := by
  have hperm := hp.flatMap_right (ce.extractSentence label excl)
  exact ⟨hperm, fun c => hperm.mem_iff⟩

/-- Witness for claim C10: the order-invariance theorem applied to two
concrete orderings of a two-sentence collection, the permutation
hypothesis discharged by an explicit swap. -/
theorem extract_order_invariance_spec_witness :
    (pairExtractor.extract "cands" false [pairSentence, lungSentence]).Perm
      (pairExtractor.extract "cands" false [lungSentence, pairSentence]) ∧
    (pairCandidate ∈
        pairExtractor.extract "cands" false [pairSentence, lungSentence] ↔
      pairCandidate ∈
        pairExtractor.extract "cands" false [lungSentence, pairSentence]) := by
  have h := extract_order_invariance_spec pairExtractor "cands" false
    [pairSentence, lungSentence] [lungSentence, pairSentence]
    (List.Perm.swap lungSentence pairSentence [])
  exact ⟨h.1, h.2 pairCandidate⟩
